import Mathlib

/-!
Shallow embedding of the signal-derivation pipeline of `src/app.py`
(RSI-with-moving-averages crypto analysis app).

Modelling conventions:
* a pandas float Series is a `List ℚ` when it can hold no NaN, and a
  `List (Option ℚ)` when it can (NaN = `none`);
* `Series.rolling(window=w).mean()` keeps the default `min_periods = w`,
  so the first `w - 1` entries are NaN;
* `delta.where(delta > 0, 0)` replaces every entry failing the comparison
  by `0`; a NaN entry fails every comparison, so the leading NaN produced
  by `Series.diff()` is replaced by `0` as well;
* IEEE division inside `calculate_rsi` is reproduced exactly on the one
  path the data allows (both operands nonnegative): `g / 0 = inf` for
  `g > 0` makes `100 - 100 / (1 + rs)` collapse to `100`, and `0 / 0`
  is NaN (`none`);
* `.round(2)` is round-half-to-even (numpy/pandas banker's rounding),
  idealised over ℚ;
* the dataframe index is a list of `Date` values carried alongside the
  `Close` column; `df.index.month` is the `m` field.
-/

set_option maxHeartbeats 1000000

/-- Calendar date of a dataframe row (year, month-of-year, day-of-month). -/
structure Date where
  y : ℕ
  m : ℕ
  d : ℕ
deriving DecidableEq

/-- Chronological (lexicographic) strict order on dates. -/
def dateLt (a b : Date) : Prop :=
  a.y < b.y ∨ (a.y = b.y ∧ (a.m < b.m ∨ (a.m = b.m ∧ a.d < b.d)))

instance (a b : Date) : Decidable (dateLt a b) :=
  inferInstanceAs (Decidable (_ ∨ _))

/-- Line 11, `prices.diff()`: NaN first entry, then consecutive differences. -/
def diff : List ℚ → List (Option ℚ)
  | [] => []
  | p :: rest => none :: List.zipWith (fun prev cur => some (cur - prev)) (p :: rest) rest

/-- Line 12, `delta.where(delta > 0, 0)` applied entrywise: a NaN fails the
comparison and is replaced by `0`. -/
def toGain : Option ℚ → ℚ
  | none => 0
  | some d => if 0 < d then d else 0

/-- Line 13, `-delta.where(delta < 0, 0)` applied entrywise. -/
def toLoss : Option ℚ → ℚ
  | none => 0
  | some d => -(if d < 0 then d else 0)

/-- `Series.rolling(window=w).mean()` with the default `min_periods = w`:
entry `t` is the mean of entries `t - w + 1 .. t`, NaN while fewer than `w`
entries are available. -/
def rollingMean (w : ℕ) (l : List ℚ) : List (Option ℚ) :=
  (List.range l.length).map (fun t =>
    if t + 1 < w then none else some (((l.drop (t + 1 - w)).take w).sum / w))

/-- Lines 14-15 evaluated entrywise at nonnegative `g` (avg gain) and `l`
(avg loss): `rs = g / l`, `rsi = 100 - 100 / (1 + rs)`, with the IEEE
behaviour `g / 0 = inf` (so rsi `= 100`) for `g > 0` and `0 / 0 = NaN`. -/
def rsiPoint (g l : ℚ) : Option ℚ :=
  if l = 0 then (if g = 0 then none else some 100)
  else some (100 - 100 / (1 + g / l))

/-- Lines 10-16, `calculate_rsi(prices, period)`. -/
def calculate_rsi (prices : List ℚ) (period : ℕ) : List (Option ℚ) :=
  (List.zip (rollingMean period ((diff prices).map toGain))
            (rollingMean period ((diff prices).map toLoss))).map
    (fun p => match p.1, p.2 with
      | some g, some l => rsiPoint g l
      | _, _ => none)

/-- Round-half-to-even at 2 decimal places (`Series.round(2)` / `round(x, 2)`). -/
def round2 (x : ℚ) : ℚ :=
  (if 100 * x - (⌊100 * x⌋ : ℤ) < 1 / 2 then ((⌊100 * x⌋ : ℤ) : ℚ)
   else if 1 / 2 < 100 * x - (⌊100 * x⌋ : ℤ) then ((⌊100 * x⌋ + 1 : ℤ) : ℚ)
   else if (⌊100 * x⌋ : ℤ) % 2 = 0 then ((⌊100 * x⌋ : ℤ) : ℚ)
   else ((⌊100 * x⌋ + 1 : ℤ) : ℚ)) / 100

/-- A row retained by line 70's `df.dropna()`: date, close and the (rounded,
line 69) RSI value, which that dropna guarantees to be defined. -/
structure TrimmedRow where
  date : Date
  close : ℚ
  rsi : ℚ
deriving DecidableEq

/-- Lines 68-70: attach `df['RSI'] = calculate_rsi(df['Close']).round(2)` and
drop the rows where it is NaN. -/
def trimmed (input : List (Date × ℚ)) (period : ℕ) : List TrimmedRow :=
  (List.zip input (calculate_rsi (input.map Prod.snd) period)).filterMap
    (fun p => p.2.map (fun v => ⟨p.1.1, p.1.2, round2 v⟩))

/-- Line 73: realized window of the `SMA100` column — 100 when at least 100
rows survive the RSI trim, otherwise `min 50 (number of rows)`. -/
def smaWindow (n : ℕ) : ℕ := if 100 ≤ n then 100 else min 50 n

/-- A fully classified day (row of the dataframe after lines 72-91): close,
stored (rounded) RSI, the two moving averages and the ten boolean flags. -/
structure ClassifiedDay where
  date : Date
  close : ℚ
  rsi : ℚ
  sma50 : Option ℚ
  sma100 : ℚ
  oversold : Bool
  overbought : Bool
  extreme_oversold : Bool
  extreme_overbought : Bool
  uptrend : Bool
  downtrend : Bool
  buy_uptrend : Bool
  sell_downtrend : Bool
  buy_risky : Bool
  sell_uptrend : Bool
deriving DecidableEq

/-- Lines 80-91: the flag columns of one retained row. -/
def mkDay (row : TrimmedRow) (s50 : Option ℚ) (s100 : ℚ) : ClassifiedDay :=
  let os := decide (row.rsi < 30)
  let ob := decide (70 < row.rsi)
  let xos := decide (row.rsi < 20)
  let xob := decide (80 < row.rsi)
  let up := decide (s100 < row.close)
  let dn := decide (row.close < s100)
  ⟨row.date, row.close, row.rsi, s50, s100, os, ob, xos, xob, up, dn,
   os && up, ob && dn, os && dn, ob && up⟩

/-- Lines 68-91: the classified series — RSI trim, `SMA50`, `SMA100` with the
realized window of line 73, drop of the rows lacking `SMA100` (line 76), and
the flag columns. -/
def pipeline (input : List (Date × ℚ)) (period : ℕ) : List ClassifiedDay :=
  let t := trimmed input period
  let s50 := rollingMean 50 (t.map TrimmedRow.close)
  let s100 := rollingMean (smaWindow t.length) (t.map TrimmedRow.close)
  (t.zip (s50.zip s100)).filterMap (fun p => p.2.2.map (fun s => mkDay p.1 p.2.1 s))

/-- Position label of an interaction record (Sopra / Sotto SMA100). -/
inductive Pos
  | above
  | below
deriving DecidableEq

/-- Category of an interaction record (the `Tipo` column). -/
inductive Category
  | buyUptrend
  | sellDowntrend
  | buyRisky
  | sellUptrend
deriving DecidableEq

/-- One row of the interactions table (lines 113-127). -/
structure InteractionRecord where
  date : Date
  category : Category
  price : ℚ
  rsi : ℚ
  position : Pos
deriving DecidableEq

/-- Body of the loop of lines 114-127: at most one record per row, first
matching flag in the fixed order buy_uptrend, sell_downtrend, buy_risky,
sell_uptrend; each branch re-derives the position label from its own
close-vs-SMA100 comparison. -/
def recordOf (d : ClassifiedDay) : Option InteractionRecord :=
  if d.buy_uptrend then
    some ⟨d.date, Category.buyUptrend, d.close, round2 d.rsi,
          if d.sma100 < d.close then Pos.above else Pos.below⟩
  else if d.sell_downtrend then
    some ⟨d.date, Category.sellDowntrend, d.close, round2 d.rsi,
          if d.close < d.sma100 then Pos.below else Pos.above⟩
  else if d.buy_risky then
    some ⟨d.date, Category.buyRisky, d.close, round2 d.rsi,
          if d.close < d.sma100 then Pos.below else Pos.above⟩
  else if d.sell_uptrend then
    some ⟨d.date, Category.sellUptrend, d.close, round2 d.rsi,
          if d.sma100 < d.close then Pos.above else Pos.below⟩
  else none

/-- Lines 113-127: the chronological interaction log. -/
def interactions (days : List ClassifiedDay) : List InteractionRecord :=
  days.filterMap recordOf

/-- The flag column a record category was emitted from. -/
def categoryFlag : Category → ClassifiedDay → Bool
  | Category.buyUptrend, d => d.buy_uptrend
  | Category.sellDowntrend, d => d.sell_downtrend
  | Category.buyRisky, d => d.buy_risky
  | Category.sellUptrend, d => d.sell_uptrend

/-- The four live recommendations of lines 138-145. -/
inductive Signal
  | buyOversoldUptrend
  | sellOverboughtDowntrend
  | sellPullback
  | hold
deriving DecidableEq

/-- Lines 134-145: live signal from the stored RSI of the latest classified
day (rounded again at line 135), its `SMA100`, and the live price. -/
def resolveSignal (latestRsi sma100 livePrice : ℚ) : Signal :=
  if decide (round2 latestRsi < 30) && decide (sma100 < livePrice) then
    Signal.buyOversoldUptrend
  else if decide (70 < round2 latestRsi) && !(decide (sma100 < livePrice)) then
    Signal.sellOverboughtDowntrend
  else if decide (70 < round2 latestRsi) then Signal.sellPullback
  else Signal.hold

/-- The change column `s != s.shift()` of lines 95-96, threaded with the
previous value; pandas compares the first entry against the shifted-in NaN,
which yields `true`. -/
def changesFrom (prev : Option Bool) : List Bool → List Bool
  | [] => []
  | b :: rest => decide (some b ≠ prev) :: changesFrom (some b) rest

/-- Inclusive running sum (`cumsum`) of a boolean column. -/
def cumsumFrom (acc : ℕ) : List Bool → List ℕ
  | [] => []
  | b :: rest =>
    let a := if b then acc + 1 else acc
    a :: cumsumFrom a rest

/-- Lines 95-96 (and the per-group lambdas of lines 107-108):
`(s != s.shift()).cumsum()[s].nunique()`. -/
def eventCount (flags : List Bool) : ℕ :=
  ((((cumsumFrom 0 (changesFrom none flags)).zip flags).filter
      (fun p => p.2)).map Prod.fst).toFinset.card

/-- Day count of a boolean column (`s.sum()`, lines 93-94): number of true days. -/
def dayCount (flags : List Bool) : ℕ := flags.count true

/-- Number of maximal runs of consecutive true days, stated as in the spec:
an event starts where the flag is true and the prior day's flag (or
start-of-series, `prev = false`) is false. -/
def countRunsFrom (prev : Bool) : List Bool → ℕ
  | [] => 0
  | b :: rest => (if b && !prev then 1 else 0) + countRunsFrom b rest

/-- Number of maximal runs of true days of a whole column. -/
def countRuns (flags : List Bool) : ℕ := countRunsFrom false flags

/-- Whether some two consecutive days are both true. -/
def hasConsecTrue : List Bool → Bool
  | [] => false
  | [_] => false
  | a :: b :: rest => (a && b) || hasConsecTrue (b :: rest)

/-- Rows of the classified series falling in calendar month-of-year `m`
(the `groupby('Month')` group of lines 105-106), projected to a flag column. -/
def monthFlags (days : List ClassifiedDay) (f : ClassifiedDay → Bool) (m : ℕ) : List Bool :=
  (days.filter (fun d => decide (d.date.m = m))).map f

/-- Sum over all groups of the monthly rollup (lines 105-111) of the
per-month event count of a flag column. -/
def monthlyEventSum (days : List ClassifiedDay) (f : ClassifiedDay → Bool) : ℕ :=
  ∑ m in (days.map (fun d => d.date.m)).toFinset, eventCount (monthFlags days f m)

/-- Each key of the list occurs in at most one contiguous block. This holds
for the month-of-year column of every classified series the app can build
(at most 259 consecutive daily rows, so no month recurs across years), and
it is the hypothesis under which the month-of-year grouping of line 106
splits the series into contiguous chunks. -/
def blockedB : List ℕ → Bool
  | [] => true
  | k :: rest =>
    let r := rest.dropWhile (fun x => decide (x = k))
    !(decide (k ∈ r)) && blockedB r
termination_by l => l.length
decreasing_by
  exact Nat.lt_succ_of_le (List.dropWhile_sublist _).length_le

/-- The real consecutive deltas `close[t] - close[t-1]` (`t ≥ 1`), as named
by the spec's oscillator formula. -/
def realDeltas (prices : List ℚ) : List ℚ :=
  List.zipWith (fun prev cur => cur - prev) prices prices.tail

/-- Stated formula of the spec, spec §4.1: simple mean of `gain[t] =
max(delta, 0)` over the trailing `P` days of day `t` (meaningful for
`P ≤ t`). -/
def specAvgGain (prices : List ℚ) (P t : ℕ) : ℚ :=
  ((((realDeltas prices).drop (t - P)).take P).map (fun d => max d 0)).sum / P

/-- Stated formula of the spec, spec §4.1: simple mean of `loss[t] =
max(-delta, 0)` over the trailing `P` days of day `t`. -/
def specAvgLoss (prices : List ℚ) (P t : ℕ) : ℚ :=
  ((((realDeltas prices).drop (t - P)).take P).map (fun d => max (-d) 0)).sum / P

/-- Stated oscillator formula of the spec for day `t`: `rs = avg_gain /
avg_loss`, `osc = 100 - 100 / (1 + rs)`, saturating at 100 when
`avg_loss = 0 < avg_gain` and undefined when both averages vanish. -/
def specOsc (prices : List ℚ) (P t : ℕ) : Option ℚ :=
  rsiPoint (specAvgGain prices P t) (specAvgLoss prices P t)

/-- Unrounded oscillator value of the input row carrying date `dt`. -/
def rawOsc (input : List (Date × ℚ)) (P : ℕ) (dt : Date) : Option ℚ :=
  match input.findIdx? (fun r => decide (r.1 = dt)) with
  | none => none
  | some i => (calculate_rsi (input.map Prod.snd) P).getD i none

/-- Date constant for the concrete test series (January 2024, day `k`). -/
def mkDate (k : ℕ) : Date := ⟨2024, 1, k⟩

/-- Ten-day series whose last day has unrounded RSI(9) `= 29.999`, which
rounds to `30.00`: one gain of 29999 and one loss of 70001 in the window. -/
def c2Input : List (Date × ℚ) :=
  [(mkDate 1, 100000), (mkDate 2, 129999), (mkDate 3, 59998), (mkDate 4, 59998),
   (mkDate 5, 59998), (mkDate 6, 59998), (mkDate 7, 59998), (mkDate 8, 59998),
   (mkDate 9, 59998), (mkDate 10, 59998)]

/-- The single classified day the pipeline produces from `c2Input`:
stored RSI `30.00` (rounded up from `29.999`), all flags false. -/
def c2Day : ClassifiedDay :=
  ⟨mkDate 10, 59998, 30, none, 59998, false, false, false, false, false,
   false, false, false, false, false⟩

/-- Ten-day series whose single classified day is a buy-uptrend day:
last-day RSI(9) is `100/1001 ≈ 0.1 < 30` and the close sits above the
realized SMA. -/
def c6Input : List (Date × ℚ) :=
  [(mkDate 1, 2000), (mkDate 2, 2000), (mkDate 3, 1000), (mkDate 4, 1000),
   (mkDate 5, 1000), (mkDate 6, 1000), (mkDate 7, 1000), (mkDate 8, 1000),
   (mkDate 9, 1000), (mkDate 10, 1001)]

/-- Ten-day series whose single classified day is overbought
(RSI(9) rounds to `99.9`) with close below the realized SMA boundary. -/
def c3Input : List (Date × ℚ) :=
  [(mkDate 1, 1000), (mkDate 2, 1000), (mkDate 3, 2000), (mkDate 4, 2000),
   (mkDate 5, 2000), (mkDate 6, 2000), (mkDate 7, 2000), (mkDate 8, 2000),
   (mkDate 9, 2000), (mkDate 10, 1999)]

/-- The single classified day the pipeline produces from `c3Input`:
stored RSI `99.9`, overbought and extreme-overbought, in downtrend
(close `1999` under SMA `1999.5`), hence a sell-downtrend day. -/
def c3Day : ClassifiedDay :=
  ⟨mkDate 10, 1999, 999 / 10, none, 3999 / 2, false, true, false, true, false,
   true, false, true, false, false⟩

/-- Strictly increasing series of exactly 99 = trend_window - 1 days. -/
def c7Input : List (Date × ℚ) :=
  (List.range 99).map (fun i => (mkDate (i + 1), (i : ℚ) + 1))

/-- Strictly increasing ten-price series for the saturation witness. -/
def c8List : List ℚ := [1, 2, 3, 4, 5, 6, 7, 8, 9, 10]

/-- Constant three-day series for the constant-price witness. -/
def c9Input : List (Date × ℚ) :=
  [(mkDate 1, 5), (mkDate 2, 5), (mkDate 3, 5)]

/-- Next group id after seeing flag `b` with previous flag `prev`:
the cumulative change count steps exactly when `b` differs from `prev`
(or `prev` is the shifted-in NaN). -/
def bumpAcc (prev : Option Bool) (b : Bool) (acc : ℕ) : ℕ :=
  if some b ≠ prev then acc + 1 else acc

/-- Fused form of lines 95-96: the group ids produced by
`(s != s.shift()).cumsum()` read off at the true positions of `s`. -/
def idsFrom (prev : Option Bool) (acc : ℕ) : List Bool → List ℕ
  | [] => []
  | b :: rest =>
    (if b then [bumpAcc prev b acc] else []) ++ idsFrom (some b) (bumpAcc prev b acc) rest

/-- The single classified day the pipeline produces from `c6Input`:
oversold (stored RSI `0.1`) in uptrend (close `1001` above SMA `1000.5`),
hence a buy-uptrend day. -/
def c6Day : ClassifiedDay :=
  ⟨mkDate 10, 1001, 1 / 10, none, 2001 / 2, true, false, true, false, true,
   false, true, false, false, false⟩

/-- The single interaction record the pipeline emits on `c6Input`. -/
def c6Record : InteractionRecord :=
  ⟨mkDate 10, Category.buyUptrend, 1001, 1 / 10, Pos.above⟩

/-! ## Basic facts about the oscillator embedding -/

theorem rollingMean_length (w : ℕ) (l : List ℚ) : (rollingMean w l).length = l.length := by
  simp [rollingMean]

theorem rollingMean_getElem (w : ℕ) (l : List ℚ) (t : ℕ) (ht : t < l.length) :
    (rollingMean w l)[t]? =
      some (if t + 1 < w then none else some (((l.drop (t + 1 - w)).take w).sum / w)) := by
  unfold rollingMean
  rw [List.getElem?_map, List.getElem?_range ht]
  rfl

theorem diff_length (prices : List ℚ) : (diff prices).length = prices.length := by
  cases prices with
  | nil => rfl
  | cons p rest => simp [diff]

theorem calculate_rsi_length (prices : List ℚ) (P : ℕ) :
    (calculate_rsi prices P).length = prices.length := by
  unfold calculate_rsi
  simp [rollingMean_length, diff_length]

theorem zip_getElem_both {α β : Type} (a : List α) (b : List β) (i : ℕ) (x : α) (y : β)
    (hx : a[i]? = some x) (hy : b[i]? = some y) : (a.zip b)[i]? = some (x, y) := by
  rw [List.zip, List.getElem?_zipWith, hx, hy]

theorem calculate_rsi_getElem (prices : List ℚ) (P t : ℕ) (ht : t < prices.length) :
    (calculate_rsi prices P)[t]? =
      some (if t + 1 < P then none
        else rsiPoint (((((diff prices).map toGain).drop (t + 1 - P)).take P).sum / P)
                      (((((diff prices).map toLoss).drop (t + 1 - P)).take P).sum / P)) := by
  unfold calculate_rsi
  rw [List.getElem?_map,
    zip_getElem_both _ _ t _ _
      (rollingMean_getElem P _ t (by simp [diff_length, ht]))
      (rollingMean_getElem P _ t (by simp [diff_length, ht]))]
  by_cases h : t + 1 < P
  · simp [h]
  · simp [h]

theorem diff_cons (p : ℚ) (rest : List ℚ) :
    diff (p :: rest) = none :: (realDeltas (p :: rest)).map some := by
  simp [diff, realDeltas, List.map_zipWith]

theorem toGain_some (d : ℚ) : toGain (some d) = max d 0 := by
  unfold toGain
  rcases lt_or_le 0 d with h | h
  · simp [h, max_eq_left h.le]
  · simp [not_lt.mpr h, max_eq_right h]

theorem toLoss_some (d : ℚ) : toLoss (some d) = max (-d) 0 := by
  unfold toLoss
  rcases lt_or_le d 0 with h | h
  · simp [h, max_eq_left (by linarith : (0:ℚ) ≤ -d)]
  · simp [not_lt.mpr h, max_eq_right (by linarith : -d ≤ (0:ℚ))]

theorem realDeltas_length (prices : List ℚ) :
    (realDeltas prices).length = prices.length - 1 := by
  cases prices with
  | nil => rfl
  | cons p rest => simp [realDeltas]

/-- For `P ≤ t` the window of the code's gain column over day `t` is the
spec's window of real deltas mapped through `max(delta, 0)`: the coerced
leading NaN (index 0) falls outside the window. -/
theorem gain_window_eq (prices : List ℚ) (P t : ℕ) (hP : P ≤ t) (hne : prices ≠ []) :
    (((diff prices).map toGain).drop (t + 1 - P)).take P =
      (((realDeltas prices).drop (t - P)).take P).map (fun d => max d 0) := by
  cases prices with
  | nil => exact absurd rfl hne
  | cons p rest =>
    rw [diff_cons, List.map_cons, List.map_map]
    have h1 : t + 1 - P = (t - P) + 1 := by omega
    rw [h1, List.drop_succ_cons, ← List.map_drop, ← List.map_take]
    congr 1
    funext d
    exact toGain_some d

theorem loss_window_eq (prices : List ℚ) (P t : ℕ) (hP : P ≤ t) (hne : prices ≠ []) :
    (((diff prices).map toLoss).drop (t + 1 - P)).take P =
      (((realDeltas prices).drop (t - P)).take P).map (fun d => max (-d) 0) := by
  cases prices with
  | nil => exact absurd rfl hne
  | cons p rest =>
    rw [diff_cons, List.map_cons, List.map_map]
    have h1 : t + 1 - P = (t - P) + 1 := by omega
    rw [h1, List.drop_succ_cons, ← List.map_drop, ← List.map_take]
    congr 1
    funext d
    exact toLoss_some d

/-- Pointwise agreement of `calculate_rsi` with the spec formula from day `P` on. -/
theorem rsi_formula (prices : List ℚ) (P t : ℕ) (hP : P ≤ t) (ht : t < prices.length) :
    (calculate_rsi prices P)[t]? = some (specOsc prices P t) := by
  have hne : prices ≠ [] := by
    intro h
    rw [h] at ht
    exact absurd ht (by simp)
  rw [calculate_rsi_getElem prices P t ht, if_neg (by omega)]
  rw [gain_window_eq prices P t hP hne, loss_window_eq prices P t hP hne]
  rfl

/-- Entries before index `P - 1` are undefined (the rolling means are NaN). -/
theorem rsi_early_none (prices : List ℚ) (P t : ℕ) (ht : t < prices.length)
    (hEarly : t + 1 < P) : (calculate_rsi prices P)[t]? = some none := by
  rw [calculate_rsi_getElem prices P t ht, if_pos hEarly]

/-- C1 counterexample. The claim says the first `P` output entries are
undefined for every input; on a strictly increasing 9-price series with
`P = 9`, entry 8 (the ninth entry) is already defined (and equals 100),
because the leading NaN delta is coerced to a zero gain/loss by
`where(...)` before the rolling mean. -/
theorem c1_counterexample :
    ¬ (∀ (prices : List ℚ) (P : ℕ), 0 < P → ∀ t, t < P → t < prices.length →
        (calculate_rsi prices P)[t]? = some none) := by
  intro h
  have h9 := h [1, 2, 3, 4, 5, 6, 7, 8, 9] 9 (by norm_num) 8 (by norm_num) (by norm_num)
  have hv : (calculate_rsi [1, 2, 3, 4, 5, 6, 7, 8, 9] 9)[8]? = some (some 100) := by
    norm_num [calculate_rsi, diff, toGain, toLoss, rollingMean, rsiPoint,
      show List.range 9 = [0, 1, 2, 3, 4, 5, 6, 7, 8] from by decide]
  rw [hv] at h9
  exact absurd (Option.some.inj h9) (by simp)

/-- C1, amended: same length as the input; the first `P - 1` entries are
always undefined; and from day `P` on the oscillator is exactly the spec's
formula — delta, gain = max(delta, 0), loss = max(-delta, 0), simple
trailing-`P` means, `rs = avg_gain / avg_loss`, `osc = 100 - 100/(1 + rs)`
(saturating at 100 when only gains, undefined when both means vanish).
Only the status of entry `P - 1` differs from the claim: the coerced
leading NaN lets it be defined, as the counterexample shows. -/
theorem c1_amended (prices : List ℚ) (P : ℕ) (hP : 0 < P) :
    (calculate_rsi prices P).length = prices.length ∧
    (∀ t, t < prices.length → t + 1 < P → (calculate_rsi prices P)[t]? = some none) ∧
    (∀ t, P ≤ t → t < prices.length → (calculate_rsi prices P)[t]? = some (specOsc prices P t)) := by
  refine ⟨calculate_rsi_length prices P, ?_, ?_⟩
  · intro t ht hEarly
    exact rsi_early_none prices P t ht hEarly
  · intro t hPt ht
    exact rsi_formula prices P t hPt ht

/-- Witness for the amended C1 at a concrete input: on the 10-price list
`1..10` with period 9, the length is 10, entry 0 is undefined, and entry 9
follows the spec formula. -/
theorem c1_amended_witness :
    (calculate_rsi c8List 9).length = 10 ∧
    (calculate_rsi c8List 9)[0]? = some none ∧
    (calculate_rsi c8List 9)[9]? = some (specOsc c8List 9 9) := by
  have h := c1_amended c8List 9 (by norm_num)
  exact ⟨by rw [h.1]; rfl,
         h.2.1 0 (by norm_num [c8List]) (by norm_num),
         h.2.2 9 (by norm_num) (by norm_num [c8List])⟩

theorem realDeltas_getElem (prices : List ℚ) (j : ℕ) (hj : j + 1 < prices.length) :
    (realDeltas prices)[j]? = some (prices.getD (j + 1) 0 - prices.getD j 0) := by
  unfold realDeltas
  rw [List.getElem?_zipWith, List.getElem?_tail,
    List.getElem?_eq_getElem (by omega : j < prices.length),
    List.getElem?_eq_getElem hj]
  rw [List.getD_eq_getElem?_getD, List.getD_eq_getElem?_getD,
    List.getElem?_eq_getElem (by omega : j < prices.length),
    List.getElem?_eq_getElem hj]
  rfl

/-- Every element of the trailing-`P` delta window of day `t` is a
difference of consecutive prices inside the window. -/
theorem window_mem (prices : List ℚ) (P t : ℕ) (x : ℚ) (hPt : P ≤ t) (ht : t < prices.length)
    (hx : x ∈ ((realDeltas prices).drop (t - P)).take P) :
    ∃ j, t - P ≤ j ∧ j < t ∧ x = prices.getD (j + 1) 0 - prices.getD j 0 := by
  obtain ⟨k, hk⟩ := List.mem_iff_getElem?.mp hx
  have hkP : k < P := by
    by_contra hge
    rw [List.getElem?_eq_none (by
      calc (((realDeltas prices).drop (t - P)).take P).length ≤ P := by
            rw [List.length_take]; omega
        _ ≤ k := by omega)] at hk
    exact absurd hk (by simp)
  rw [List.getElem?_take_of_lt hkP, List.getElem?_drop] at hk
  have hkd : t - P + k < (realDeltas prices).length := by
    by_contra hge
    rw [List.getElem?_eq_none (by omega)] at hk
    exact absurd hk (by simp)
  have hj : (t - P + k) + 1 < prices.length := by
    rw [realDeltas_length] at hkd
    omega
  rw [realDeltas_getElem prices _ hj] at hk
  exact ⟨t - P + k, by omega, by omega, (Option.some.inj hk).symm⟩

/-- C8: for a price series strictly increasing over the trailing lookback
window of day `t` (`P ≤ t < n`), the oscillator at `t` is the defined value
100 — `avg_loss = 0` saturates the formula instead of crashing. -/
theorem c8_saturation (prices : List ℚ) (P t : ℕ) (hP : 0 < P) (hPt : P ≤ t)
    (ht : t < prices.length)
    (hmono : ∀ i, i < t → t - P ≤ i → prices.getD i 0 < prices.getD (i + 1) 0) :
    (calculate_rsi prices P)[t]? = some (some 100) := by
  have hwin : ∀ x ∈ ((realDeltas prices).drop (t - P)).take P, 0 < x := by
    intro x hx
    obtain ⟨j, hj1, hj2, hj3⟩ := window_mem prices P t x hPt ht hx
    have := hmono j hj2 hj1
    rw [hj3]
    linarith
  have hlen : (((realDeltas prices).drop (t - P)).take P).length = P := by
    rw [List.length_take, List.length_drop, realDeltas_length]
    omega
  have hloss : specAvgLoss prices P t = 0 := by
    unfold specAvgLoss
    rw [List.sum_eq_zero, zero_div]
    intro x hx
    obtain ⟨d, hd, hdx⟩ := List.mem_map.mp hx
    have := hwin d hd
    rw [← hdx, max_eq_right (by linarith : -d ≤ (0:ℚ))]
  have hgain : specAvgGain prices P t ≠ 0 := by
    unfold specAvgGain
    have hpos : 0 < ((((realDeltas prices).drop (t - P)).take P).map (fun d => max d 0)).sum := by
      apply List.sum_pos
      · intro x hx
        obtain ⟨d, hd, hdx⟩ := List.mem_map.mp hx
        have := hwin d hd
        rw [← hdx, max_eq_left (by linarith : (0:ℚ) ≤ d)]
        exact this
      · intro hnil
        have := congrArg List.length hnil
        rw [List.length_map, hlen] at this
        simp at this
        omega
    have hPQ : (0:ℚ) < (P : ℚ) := by
      exact_mod_cast hP
    positivity
  rw [rsi_formula prices P t hPt ht]
  unfold specOsc rsiPoint
  rw [if_pos hloss, if_neg hgain]

/-- Witness for C8 at the concrete strictly increasing series `1..10`. -/
theorem c8_witness : (calculate_rsi c8List 9)[9]? = some (some 100) :=
  c8_saturation c8List 9 9 (by norm_num) (by norm_num) (by norm_num [c8List])
    (by with_unfolding_all decide)

theorem zipWith_sub_replicate (c : ℚ) (m : ℕ) :
    List.zipWith (fun prev cur => some (cur - prev)) (c :: List.replicate m c)
      (List.replicate m c) = List.replicate m (some (0 : ℚ)) := by
  induction m with
  | zero => rfl
  | succ k ih =>
    simp only [List.replicate_succ, List.zipWith_cons_cons, sub_self]
    rw [ih]

theorem diff_replicate (c : ℚ) (n : ℕ) :
    diff (List.replicate n c) =
      match n with
      | 0 => []
      | Nat.succ m => none :: List.replicate m (some (0 : ℚ)) := by
  cases n with
  | zero => rfl
  | succ m =>
    show diff (List.replicate (m + 1) c) = none :: List.replicate m (some (0 : ℚ))
    rw [List.replicate_succ, diff, zipWith_sub_replicate c m]

theorem gains_replicate (c : ℚ) (n : ℕ) :
    (diff (List.replicate n c)).map toGain = List.replicate n (0 : ℚ) := by
  rw [diff_replicate]
  cases n with
  | zero => rfl
  | succ m =>
    rw [List.map_cons, List.map_replicate]
    rw [show toGain none = 0 from rfl, show toGain (some 0) = 0 from by norm_num [toGain]]
    rw [List.replicate_succ]

theorem losses_replicate (c : ℚ) (n : ℕ) :
    (diff (List.replicate n c)).map toLoss = List.replicate n (0 : ℚ) := by
  rw [diff_replicate]
  cases n with
  | zero => rfl
  | succ m =>
    rw [List.map_cons, List.map_replicate]
    rw [show toLoss none = 0 from rfl, show toLoss (some 0) = 0 from by norm_num [toLoss]]
    rw [List.replicate_succ]

theorem rollingMean_replicate_zero_mem (w n : ℕ) (x : Option ℚ)
    (hx : x ∈ rollingMean w (List.replicate n (0 : ℚ))) : x = none ∨ x = some 0 := by
  unfold rollingMean at hx
  obtain ⟨t, _, hval⟩ := List.mem_map.mp hx
  by_cases h : t + 1 < w
  · rw [if_pos h] at hval
    exact Or.inl hval.symm
  · rw [if_neg h] at hval
    refine Or.inr ?_
    rw [← hval, List.drop_replicate, List.take_replicate, List.sum_replicate]
    simp

theorem rsi_constant (c : ℚ) (n P : ℕ) :
    calculate_rsi (List.replicate n c) P = List.replicate n none := by
  rw [List.eq_replicate_iff]
  constructor
  · rw [calculate_rsi_length, List.length_replicate]
  · intro b hb
    unfold calculate_rsi at hb
    obtain ⟨p, hp, hval⟩ := List.mem_map.mp hb
    obtain ⟨h1, h2⟩ := List.of_mem_zip hp
    rw [gains_replicate] at h1
    rw [losses_replicate] at h2
    rcases rollingMean_replicate_zero_mem _ _ _ h1 with hg | hg <;>
      rcases rollingMean_replicate_zero_mem _ _ _ h2 with hl | hl <;>
      obtain ⟨a, b2⟩ := p <;> simp only at hg hl <;> subst hg <;> subst hl <;>
      simp only [← hval] <;> rfl

/-- C9: on a constant-price series the oscillator is undefined on every row
(0/0 on every full window, rolling-mean NaN before), and line 70's dropna
removes every row, so none reaches classification. This undefinedness is
the two-sided zero case, distinct from the `avg_loss = 0 < avg_gain`
saturation at 100. -/
theorem c9_constant (input : List (Date × ℚ)) (c : ℚ) (P : ℕ) (hP : 0 < P)
    (hc : ∀ r ∈ input, r.2 = c) :
    calculate_rsi (input.map Prod.snd) P = List.replicate input.length none ∧
    trimmed input P = [] := by
  have hcl : input.map Prod.snd = List.replicate input.length c := by
    rw [List.eq_replicate_iff]
    refine ⟨by rw [List.length_map], ?_⟩
    intro b hb
    obtain ⟨r, hr, hrb⟩ := List.mem_map.mp hb
    rw [← hrb]
    exact hc r hr
  have hrsi : calculate_rsi (input.map Prod.snd) P = List.replicate input.length none := by
    rw [hcl, rsi_constant]
  refine ⟨hrsi, ?_⟩
  rw [trimmed, List.filterMap_eq_nil_iff]
  intro p hp
  have h2 : p.2 ∈ List.replicate input.length (none : Option ℚ) := by
    rw [← hrsi]
    exact (List.of_mem_zip hp).2
  rw [List.eq_of_mem_replicate h2]
  rfl

/-- Witness for C9 at the concrete constant three-day series. -/
theorem c9_witness :
    calculate_rsi (c9Input.map Prod.snd) 9 = List.replicate c9Input.length none ∧
    trimmed c9Input 9 = [] :=
  c9_constant c9Input 5 9 (by norm_num) (by
    intro r hr
    rcases List.mem_cons.mp hr with h | hr2
    · rw [h]
    · rcases List.mem_cons.mp hr2 with h | hr3
      · rw [h]
      · rcases List.mem_cons.mp hr3 with h | hr4
        · rw [h]
        · exact absurd hr4 (List.not_mem_nil r))

/-! ## Structure of the classified series -/

theorem mem_pipeline (input : List (Date × ℚ)) (P : ℕ) (d : ClassifiedDay)
    (hd : d ∈ pipeline input P) :
    ∃ row ∈ trimmed input P, ∃ s50 s100, d = mkDay row s50 s100 := by
  unfold pipeline at hd
  obtain ⟨p, hp, hval⟩ := List.mem_filterMap.mp hd
  obtain ⟨s, hs, hmk⟩ := Option.map_eq_some'.mp hval
  exact ⟨p.1, (List.of_mem_zip hp).1, p.2.1, s, hmk.symm⟩

theorem mem_trimmed (input : List (Date × ℚ)) (P : ℕ) (row : TrimmedRow)
    (hrow : row ∈ trimmed input P) :
    ∃ v : ℚ, row.rsi = round2 v := by
  unfold trimmed at hrow
  obtain ⟨p, _, hval⟩ := List.mem_filterMap.mp hrow
  obtain ⟨v, _, hmk⟩ := Option.map_eq_some'.mp hval
  exact ⟨v, by rw [← hmk]⟩

theorem round2_int_div (k : ℤ) : round2 ((k : ℚ) / 100) = (k : ℚ) / 100 := by
  unfold round2
  have h100 : (100 : ℚ) * ((k : ℚ) / 100) = (k : ℚ) := by
    field_simp
  rw [h100]
  rw [Int.floor_intCast]
  rw [sub_self]
  rw [if_pos (by norm_num : (0 : ℚ) < 1 / 2)]

theorem round2_shape (x : ℚ) : ∃ k : ℤ, round2 x = (k : ℚ) / 100 := by
  unfold round2
  split
  · exact ⟨⌊100 * x⌋, rfl⟩
  · split
    · exact ⟨⌊100 * x⌋ + 1, rfl⟩
    · split
      · exact ⟨⌊100 * x⌋, rfl⟩
      · exact ⟨⌊100 * x⌋ + 1, rfl⟩

theorem round2_idem (x : ℚ) : round2 (round2 x) = round2 x := by
  obtain ⟨k, hk⟩ := round2_shape x
  rw [hk, round2_int_div]

/-- Every day of the classified series carries flags computed from its own
stored (rounded) RSI, close and SMA100 exactly by the threshold table, and
its stored RSI is a 2-decimal value (fixed point of rounding). -/
theorem pipeline_flags (input : List (Date × ℚ)) (P : ℕ) (d : ClassifiedDay)
    (hd : d ∈ pipeline input P) :
    d.rsi = round2 d.rsi ∧
    d.oversold = decide (d.rsi < 30) ∧
    d.overbought = decide (70 < d.rsi) ∧
    d.extreme_oversold = decide (d.rsi < 20) ∧
    d.extreme_overbought = decide (80 < d.rsi) ∧
    d.uptrend = decide (d.sma100 < d.close) ∧
    d.downtrend = decide (d.close < d.sma100) ∧
    d.buy_uptrend = (d.oversold && d.uptrend) ∧
    d.sell_downtrend = (d.overbought && d.downtrend) ∧
    d.buy_risky = (d.oversold && d.downtrend) ∧
    d.sell_uptrend = (d.overbought && d.uptrend) := by
  obtain ⟨row, hrow, s50, s100, hmk⟩ := mem_pipeline input P d hd
  obtain ⟨v, hv⟩ := mem_trimmed input P row hrow
  subst hmk
  refine ⟨?_, rfl, rfl, rfl, rfl, rfl, rfl, rfl, rfl, rfl, rfl⟩
  show row.rsi = round2 row.rsi
  rw [hv, round2_idem]

set_option maxRecDepth 10000

theorem c2_trimmed_eval :
    trimmed c2Input 9 = [⟨mkDate 9, 59998, 30⟩, ⟨mkDate 10, 59998, 30⟩] := by
  rw [trimmed, show (c2Input.map Prod.snd) =
    [100000, 129999, 59998, 59998, 59998, 59998, 59998, 59998, 59998, 59998] from by
      norm_num [c2Input]]
  norm_num [calculate_rsi, c2Input, diff, toGain, toLoss, rollingMean, rsiPoint, mkDate,
    List.filterMap_cons,
    show round2 (29999 / 1000) = 30 from by norm_num [round2],
    show List.range 10 = [0, 1, 2, 3, 4, 5, 6, 7, 8, 9] from by decide]

theorem c2_pipeline_eval : pipeline c2Input 9 = [c2Day] := by
  rw [pipeline, c2_trimmed_eval]
  norm_num [rollingMean, smaWindow, mkDay, List.filterMap_cons, c2Day, mkDate,
    show List.range 2 = [0, 1] from by decide,
    show decide ((30 : ℚ) < 30) = false from by norm_num,
    show decide ((70 : ℚ) < 30) = false from by norm_num,
    show decide ((30 : ℚ) < 20) = false from by norm_num,
    show decide ((80 : ℚ) < 30) = false from by norm_num,
    show decide ((59998 : ℚ) < 59998) = false from by norm_num]

theorem c2_rawOsc_eval : rawOsc c2Input 9 (mkDate 10) = some (29999 / 1000) := by
  rw [rawOsc]
  rw [show c2Input.findIdx? (fun r => decide (r.1 = mkDate 10)) = some 9 from by decide]
  rw [show (c2Input.map Prod.snd) =
    [100000, 129999, 59998, 59998, 59998, 59998, 59998, 59998, 59998, 59998] from by
      norm_num [c2Input]]
  norm_num [calculate_rsi, diff, toGain, toLoss, rollingMean, rsiPoint, List.getD,
    show List.range 10 = [0, 1, 2, 3, 4, 5, 6, 7, 8, 9] from by decide]

/-- C2 counterexample. The claim applies the thresholds to the unrounded
oscillator value; the code thresholds the value rounded to two decimals
(line 69 rounds before line 80). On `c2Input` the last retained day has
unrounded RSI `29.999 < 30` but its oversold flag is false, because the
stored value is the rounded `30.00`. -/
theorem c2_counterexample :
    ¬ (∀ (input : List (Date × ℚ)) (P : ℕ) (d : ClassifiedDay), d ∈ pipeline input P →
        ∀ v : ℚ, rawOsc input P d.date = some v →
          (d.oversold = true ↔ v < 30) ∧ (d.overbought = true ↔ 70 < v) ∧
          (d.extreme_oversold = true ↔ v < 20) ∧ (d.extreme_overbought = true ↔ 80 < v) ∧
          (d.uptrend = true ↔ d.sma100 < d.close) ∧ (d.downtrend = true ↔ d.close < d.sma100) ∧
          (d.buy_uptrend = (d.oversold && d.uptrend)) ∧
          (d.sell_downtrend = (d.overbought && d.downtrend)) ∧
          (d.buy_risky = (d.oversold && d.downtrend)) ∧
          (d.sell_uptrend = (d.overbought && d.uptrend))) := by
  intro h
  have hmem : c2Day ∈ pipeline c2Input 9 := by
    rw [c2_pipeline_eval]
    exact List.mem_singleton.mpr rfl
  have hos := (h c2Input 9 c2Day hmem (29999 / 1000)
    (by rw [show c2Day.date = mkDate 10 from rfl]; exact c2_rawOsc_eval)).1
  have hlt : (29999 : ℚ) / 1000 < 30 := by norm_num
  have : c2Day.oversold = true := hos.mpr hlt
  exact absurd this (by rw [show c2Day.oversold = false from rfl]; simp)

/-- C2, amended: the classifier applies the threshold table to the stored
oscillator value, which is the raw value rounded to two decimals
(round-before-classify); with that one change every listed flag equation
holds exactly: oversold iff stored < 30, overbought iff stored > 70,
extreme flags at 20/80, uptrend/downtrend by strict close-vs-SMA100
comparisons, and the four composite conjunctions. -/
theorem c2_rounded (input : List (Date × ℚ)) (P : ℕ) (d : ClassifiedDay)
    (hd : d ∈ pipeline input P) :
    d.rsi = round2 d.rsi ∧
    d.oversold = decide (d.rsi < 30) ∧
    d.overbought = decide (70 < d.rsi) ∧
    d.extreme_oversold = decide (d.rsi < 20) ∧
    d.extreme_overbought = decide (80 < d.rsi) ∧
    d.uptrend = decide (d.sma100 < d.close) ∧
    d.downtrend = decide (d.close < d.sma100) ∧
    d.buy_uptrend = (d.oversold && d.uptrend) ∧
    d.sell_downtrend = (d.overbought && d.downtrend) ∧
    d.buy_risky = (d.oversold && d.downtrend) ∧
    d.sell_uptrend = (d.overbought && d.uptrend) :=
  pipeline_flags input P d hd

/-- Witness for the amended C2 at the concrete day classified from `c2Input`. -/
theorem c2_witness :
    c2Day.rsi = round2 c2Day.rsi ∧
    c2Day.oversold = decide (c2Day.rsi < 30) ∧
    c2Day.overbought = decide (70 < c2Day.rsi) ∧
    c2Day.extreme_oversold = decide (c2Day.rsi < 20) ∧
    c2Day.extreme_overbought = decide (80 < c2Day.rsi) ∧
    c2Day.uptrend = decide (c2Day.sma100 < c2Day.close) ∧
    c2Day.downtrend = decide (c2Day.close < c2Day.sma100) ∧
    c2Day.buy_uptrend = (c2Day.oversold && c2Day.uptrend) ∧
    c2Day.sell_downtrend = (c2Day.overbought && c2Day.downtrend) ∧
    c2Day.buy_risky = (c2Day.oversold && c2Day.downtrend) ∧
    c2Day.sell_uptrend = (c2Day.overbought && c2Day.uptrend) :=
  c2_rounded c2Input 9 c2Day (by rw [c2_pipeline_eval]; exact List.mem_singleton.mpr rfl)

theorem c3_trimmed_eval :
    trimmed c3Input 9 = [⟨mkDate 9, 2000, 100⟩, ⟨mkDate 10, 1999, 999 / 10⟩] := by
  rw [trimmed, show (c3Input.map Prod.snd) =
    [1000, 1000, 2000, 2000, 2000, 2000, 2000, 2000, 2000, 1999] from by norm_num [c3Input]]
  norm_num [calculate_rsi, c3Input, diff, toGain, toLoss, rollingMean, rsiPoint, mkDate,
    List.filterMap_cons,
    show round2 (100000 / 1001) = 999 / 10 from by norm_num [round2],
    show round2 100 = 100 from by norm_num [round2],
    show List.range 10 = [0, 1, 2, 3, 4, 5, 6, 7, 8, 9] from by decide]

theorem c3_pipeline_eval : pipeline c3Input 9 = [c3Day] := by
  rw [pipeline, c3_trimmed_eval]
  norm_num [rollingMean, smaWindow, mkDay, List.filterMap_cons, c3Day, mkDate,
    show List.range 2 = [0, 1] from by decide,
    show decide ((999 : ℚ) / 10 < 30) = false from by norm_num,
    show decide ((70 : ℚ) < 999 / 10) = true from by norm_num,
    show decide ((999 : ℚ) / 10 < 20) = false from by norm_num,
    show decide ((80 : ℚ) < 999 / 10) = true from by norm_num,
    show decide ((3999 : ℚ) / 2 < 1999) = false from by norm_num,
    show decide ((1999 : ℚ) < 3999 / 2) = true from by norm_num]

/-- C3: the live signal is resolved in strict priority order on the latest
classified day's stored oscillator value and SMA100 together with the live
price: (1) oscillator < 30 and live price strictly above SMA100 gives the
buy signal; (2) otherwise oscillator > 70 and live price at or below SMA100
(equality included) gives the sell-in-downtrend signal; (3) otherwise
oscillator > 70 gives the pullback sell; (4) otherwise hold. Every trend
test compares the live price with the latest SMA100, never the stored
trend flags. -/
theorem c3_signal (input : List (Date × ℚ)) (P : ℕ) (live : ℚ) (latest : ClassifiedDay)
    (hlast : (pipeline input P).getLast? = some latest) :
    (resolveSignal latest.rsi latest.sma100 live = Signal.buyOversoldUptrend ↔
      latest.rsi < 30 ∧ latest.sma100 < live) ∧
    (resolveSignal latest.rsi latest.sma100 live = Signal.sellOverboughtDowntrend ↔
      ¬(latest.rsi < 30 ∧ latest.sma100 < live) ∧ 70 < latest.rsi ∧ live ≤ latest.sma100) ∧
    (resolveSignal latest.rsi latest.sma100 live = Signal.sellPullback ↔
      ¬(latest.rsi < 30 ∧ latest.sma100 < live) ∧
      ¬(70 < latest.rsi ∧ live ≤ latest.sma100) ∧ 70 < latest.rsi) ∧
    (resolveSignal latest.rsi latest.sma100 live = Signal.hold ↔
      ¬(latest.rsi < 30 ∧ latest.sma100 < live) ∧
      ¬(70 < latest.rsi ∧ live ≤ latest.sma100) ∧ ¬ 70 < latest.rsi) := by
  have hfix := (pipeline_flags input P latest (List.mem_of_mem_getLast? hlast)).1
  rw [resolveSignal, ← hfix]
  by_cases h1 : latest.rsi < 30 <;> by_cases h2 : latest.sma100 < live <;>
    by_cases h3 : 70 < latest.rsi <;>
    simp [h1, h2, h3, not_lt] <;> try exact not_lt.mp h2

/-- Witness for C3 at the boundary scenario: latest stored RSI `99.9 > 70`,
live price exactly equal to the latest SMA100 — the equality case takes the
sell-in-downtrend branch. -/
theorem c3_witness :
    resolveSignal c3Day.rsi c3Day.sma100 (3999 / 2) = Signal.sellOverboughtDowntrend := by
  have h := c3_signal c3Input 9 (3999 / 2) c3Day (by rw [c3_pipeline_eval]; rfl)
  exact h.2.1.mpr ⟨by norm_num [c3Day], by norm_num [c3Day], le_refl _⟩

/-! ## Event counting: the cumsum-nunique formula counts maximal runs -/

theorem idsFrom_fusion (l : List Bool) : ∀ (prev : Option Bool) (acc : ℕ),
    (((cumsumFrom acc (changesFrom prev l)).zip l).filter (fun p => p.2)).map Prod.fst =
      idsFrom prev acc l := by
  induction l with
  | nil => intro prev acc; rfl
  | cons b rest ih =>
    intro prev acc
    rw [changesFrom, cumsumFrom, idsFrom]
    have hstep : (if decide (some b ≠ prev) then acc + 1 else acc) = bumpAcc prev b acc := by
      unfold bumpAcc
      by_cases h : some b ≠ prev
      · rw [if_pos (decide_eq_true h), if_pos h]
      · rw [if_neg (by simpa using h), if_neg h]
    rw [hstep, List.zip_cons_cons, List.filter_cons]
    cases b <;> simp [ih]

theorem eventCount_eq_ids (flags : List Bool) :
    eventCount flags = (idsFrom none 0 flags).toFinset.card := by
  rw [eventCount, idsFrom_fusion]

theorem bumpAcc_ge (prev : Option Bool) (b : Bool) (acc : ℕ) : acc ≤ bumpAcc prev b acc := by
  unfold bumpAcc
  split <;> omega

theorem bumpAcc_of_ne (prev : Option Bool) (b : Bool) (acc : ℕ) (h : some b ≠ prev) :
    bumpAcc prev b acc = acc + 1 := by
  unfold bumpAcc
  rw [if_pos h]

theorem idsFrom_lower (l : List Bool) : ∀ (prev : Option Bool) (acc : ℕ), ∀ x ∈ idsFrom prev acc l,
    (if prev = some true then acc else acc + 1) ≤ x := by
  induction l with
  | nil => intro prev acc x hx; exact absurd hx (List.not_mem_nil x)
  | cons b rest ih =>
    intro prev acc x hx
    rw [idsFrom] at hx
    rcases List.mem_append.mp hx with hhead | htail
    · cases b with
      | false => exact absurd hhead (by simp)
      | true =>
        have hxval : x = bumpAcc prev true acc := by simpa using hhead
        rw [hxval]
        by_cases hp : prev = some true
        · rw [if_pos hp]
          exact bumpAcc_ge _ _ _
        · rw [if_neg hp, bumpAcc_of_ne prev true acc (fun hc => hp hc.symm)]
    · have hxr := ih (some b) (bumpAcc prev b acc) x htail
      cases b with
      | true =>
        rw [if_pos rfl] at hxr
        by_cases hp : prev = some true
        · rw [if_pos hp]
          exact le_trans (bumpAcc_ge _ _ _) hxr
        · rw [if_neg hp]
          rw [bumpAcc_of_ne prev true acc (fun hc => hp hc.symm)] at hxr
          exact hxr
      | false =>
        rw [if_neg (by simp)] at hxr
        by_cases hp : prev = some false
        · have hb : bumpAcc prev false acc = acc := by
            rw [hp]
            unfold bumpAcc
            rw [if_neg (by simp)]
          rw [hb] at hxr
          rw [if_neg (by rw [hp]; simp)]
          exact hxr
        · rw [bumpAcc_of_ne prev false acc (fun hc => hp hc.symm)] at hxr
          split <;> omega

theorem idsFrom_card (l : List Bool) : ∀ (prev : Option Bool) (acc : ℕ),
    (idsFrom prev acc l).toFinset.card = countRuns l := by
  induction l with
  | nil => intro prev acc; rfl
  | cons b rest ih =>
    intro prev acc
    rw [idsFrom]
    cases b with
    | false =>
      rw [if_neg (by simp), List.nil_append, ih]
      simp [countRuns, countRunsFrom]
    | true =>
      rw [if_pos rfl]
      cases rest with
      | nil =>
        simp [idsFrom, countRuns, countRunsFrom]
      | cons b2 r =>
        cases b2 with
        | true =>
          have htail : idsFrom (some true) (bumpAcc prev true acc) (true :: r) =
              bumpAcc prev true acc :: idsFrom (some true) (bumpAcc prev true acc) r := by
            rw [idsFrom]
            have hb : bumpAcc (some true) true (bumpAcc prev true acc) = bumpAcc prev true acc := by
              unfold bumpAcc
              rw [if_neg (by simp)]
            rw [hb, if_pos rfl, List.singleton_append]
          rw [List.singleton_append, List.toFinset_cons]
          rw [Finset.insert_eq_self.mpr (by
            rw [htail]
            exact List.mem_toFinset.mpr (List.mem_cons_self _ _))]
          rw [ih (some true) (bumpAcc prev true acc)]
          simp [countRuns, countRunsFrom]
        | false =>
          have htail : idsFrom (some true) (bumpAcc prev true acc) (false :: r) =
              idsFrom (some false) (bumpAcc prev true acc + 1) r := by
            rw [idsFrom]
            have hb : bumpAcc (some true) false (bumpAcc prev true acc) =
                bumpAcc prev true acc + 1 := bumpAcc_of_ne _ _ _ (by simp)
            rw [hb, if_neg (by simp), List.nil_append]
          have hnotmem : bumpAcc prev true acc ∉
              (idsFrom (some true) (bumpAcc prev true acc) (false :: r)).toFinset := by
            rw [htail]
            intro hmem
            have hlow := idsFrom_lower r (some false) (bumpAcc prev true acc + 1)
              (bumpAcc prev true acc) (List.mem_toFinset.mp hmem)
            rw [if_neg (by simp)] at hlow
            omega
          rw [List.singleton_append, List.toFinset_cons,
            Finset.card_insert_of_not_mem hnotmem, ih (some true) (bumpAcc prev true acc)]
          simp [countRuns, countRunsFrom]
          omega

/-- The cumsum-nunique formula of lines 95-96 counts exactly the maximal
runs of consecutive true days. -/
theorem eventCount_eq_countRuns (flags : List Bool) : eventCount flags = countRuns flags := by
  rw [eventCount_eq_ids, idsFrom_card]

theorem countRunsFrom_le_count (l : List Bool) : ∀ prev, countRunsFrom prev l ≤ l.count true := by
  induction l with
  | nil => intro prev; exact le_refl 0
  | cons b rest ih =>
    intro prev
    rw [countRunsFrom, List.count_cons]
    have h1 := ih b
    cases b <;> cases prev <;> simp <;> omega

theorem countRunsFrom_eq_count_iff (l : List Bool) : ∀ prev,
    countRunsFrom prev l = l.count true ↔ hasConsecTrue (prev :: l) = false := by
  induction l with
  | nil => intro prev; simp [countRunsFrom, hasConsecTrue]
  | cons b rest ih =>
    intro prev
    rw [countRunsFrom, List.count_cons]
    cases b with
    | false =>
      have hr : hasConsecTrue (prev :: false :: rest) = hasConsecTrue (false :: rest) := by
        rw [hasConsecTrue]
        simp
      rw [hr]
      have := ih false
      simp only [Bool.false_and, Bool.false_eq_true] at this ⊢
      simpa using this
    | true =>
      cases prev with
      | false =>
        have hr : hasConsecTrue (false :: true :: rest) = hasConsecTrue (true :: rest) := by
          rw [hasConsecTrue]
          simp
        rw [hr]
        have h1 := ih true
        simp only [Bool.not_false, Bool.and_true, Bool.true_and] at h1 ⊢
        constructor
        · intro h
          refine h1.mp ?_
          simp at h
          omega
        · intro h
          have := h1.mpr h
          simp
          omega
      | true =>
        have hle := countRunsFrom_le_count rest true
        have hr : hasConsecTrue (true :: true :: rest) = true := by
          rw [hasConsecTrue]
          simp
        rw [hr]
        simp
        omega

theorem hasConsecTrue_false_cons (l : List Bool) :
    hasConsecTrue (false :: l) = hasConsecTrue l := by
  cases l with
  | nil => rfl
  | cons b r =>
    rw [hasConsecTrue]
    simp

/-- Event count, day count, and run structure of one flag column. -/
theorem eventFacts (flags : List Bool) :
    eventCount flags = countRuns flags ∧
    eventCount flags ≤ dayCount flags ∧
    (eventCount flags = dayCount flags ↔ hasConsecTrue flags = false) := by
  refine ⟨eventCount_eq_countRuns flags, ?_, ?_⟩
  · rw [eventCount_eq_countRuns, countRuns, dayCount]
    exact countRunsFrom_le_count flags false
  · rw [eventCount_eq_countRuns, countRuns, dayCount]
    rw [countRunsFrom_eq_count_iff flags false, hasConsecTrue_false_cons]

/-- C4: for both the oversold and the overbought column of any classified
series, the cumsum-nunique event count of lines 95-96 equals the number of
maximal runs of consecutive true days, is at most the day count, and equals
the day count exactly when no two consecutive days are both true. -/
theorem c4_events (days : List ClassifiedDay) :
    (eventCount (days.map (fun d => d.oversold)) = countRuns (days.map (fun d => d.oversold)) ∧
     eventCount (days.map (fun d => d.oversold)) ≤ dayCount (days.map (fun d => d.oversold)) ∧
     (eventCount (days.map (fun d => d.oversold)) = dayCount (days.map (fun d => d.oversold)) ↔
       hasConsecTrue (days.map (fun d => d.oversold)) = false)) ∧
    (eventCount (days.map (fun d => d.overbought)) = countRuns (days.map (fun d => d.overbought)) ∧
     eventCount (days.map (fun d => d.overbought)) ≤ dayCount (days.map (fun d => d.overbought)) ∧
     (eventCount (days.map (fun d => d.overbought)) = dayCount (days.map (fun d => d.overbought)) ↔
       hasConsecTrue (days.map (fun d => d.overbought)) = false)) :=
  ⟨eventFacts _, eventFacts _⟩

/-! ## Monthly rollup: splitting into contiguous groups cannot lose events -/

theorem countRunsFrom_true_le (l : List Bool) :
    countRunsFrom true l ≤ countRunsFrom false l := by
  cases l with
  | nil => exact le_refl 0
  | cons b rest =>
    rw [countRunsFrom, countRunsFrom]
    cases b <;> simp

theorem countRunsFrom_append (a : List Bool) : ∀ (prev : Bool) (b : List Bool),
    countRunsFrom prev (a ++ b) ≤ countRunsFrom prev a + countRuns b := by
  induction a with
  | nil =>
    intro prev b
    rw [List.nil_append, countRunsFrom, countRuns]
    cases prev with
    | false => simp
    | true => simpa using countRunsFrom_true_le b
  | cons x a2 ih =>
    intro prev b
    rw [List.cons_append, countRunsFrom, countRunsFrom]
    have := ih x b
    omega

theorem countRuns_append (a b : List Bool) :
    countRuns (a ++ b) ≤ countRuns a + countRuns b :=
  countRunsFrom_append a false b

theorem grouped_runs_ge {α : Type} (key : α → ℕ) (val : α → Bool) (n : ℕ) :
    ∀ l : List α, l.length ≤ n → blockedB (l.map key) = true →
    countRuns (l.map val) ≤
      ∑ m in (l.map key).toFinset,
        countRuns ((l.filter (fun x => decide (key x = m))).map val) := by
  induction n with
  | zero =>
    intro l hlen _
    rw [List.length_eq_zero.mp (Nat.le_zero.mp hlen)]
    simp [countRuns, countRunsFrom]
  | succ n ih =>
    intro l hlen hb
    cases l with
    | nil => simp [countRuns, countRunsFrom]
    | cons x0 tail =>
      have hpk : (fun x => decide (key x = key x0)) x0 = true := by simp
      rw [List.map_cons, blockedB] at hb
      rw [Bool.and_eq_true, Bool.not_eq_true', decide_eq_false_iff_not] at hb
      obtain ⟨hnotin, hbr⟩ := hb
      have hrmap : (tail.map key).dropWhile (fun m => decide (m = key x0)) =
          (tail.dropWhile (fun x => decide (key x = key x0))).map key := by
        rw [List.dropWhile_map]
        rfl
      rw [hrmap] at hnotin hbr
      set pk : α → Bool := fun x => decide (key x = key x0) with hpkdef
      set rest : List α := tail.dropWhile pk with hrest
      set block : List α := (x0 :: tail).takeWhile pk with hblock
      have hsplit : block ++ rest = x0 :: tail := by
        rw [hblock, hrest]
        rw [show tail.dropWhile pk = (x0 :: tail).dropWhile pk from by
          rw [List.dropWhile_cons_of_pos hpk]]
        exact List.takeWhile_append_dropWhile _ _
      have hblock_cons : block = x0 :: tail.takeWhile pk := by
        rw [hblock, List.takeWhile_cons_of_pos hpk]
      have hblock_keys : ∀ x ∈ block, key x = key x0 := by
        intro x hx
        rw [hblock] at hx
        have := List.mem_takeWhile_imp hx
        exact of_decide_eq_true this
      have hrest_keys : ∀ x ∈ rest, key x ≠ key x0 := by
        intro x hx hxk
        exact hnotin (List.mem_map.mpr ⟨x, hx, hxk⟩)
      have hrest_len : rest.length ≤ n := by
        have h1 : rest.length ≤ tail.length := by
          rw [hrest]
          exact (List.dropWhile_sublist pk).length_le
        have h2 : tail.length + 1 ≤ n + 1 := by simpa using hlen
        omega
      have hfilter_k0 : (x0 :: tail).filter pk = block := by
        rw [← hsplit, List.filter_append]
        have hall : ∀ x ∈ block, pk x = true := by
          intro x hx
          rw [hblock] at hx
          exact List.mem_takeWhile_imp hx
        rw [List.filter_eq_self.mpr hall]
        rw [show rest.filter pk = [] from by
          rw [List.filter_eq_nil_iff]
          intro x hx
          rw [hpkdef]
          simp only [decide_eq_true_eq]
          exact hrest_keys x hx]
        rw [List.append_nil]
      have hfilter_m : ∀ m, m ≠ key x0 →
          (x0 :: tail).filter (fun x => decide (key x = m)) =
            rest.filter (fun x => decide (key x = m)) := by
        intro m hm
        rw [← hsplit, List.filter_append]
        rw [show block.filter (fun x => decide (key x = m)) = [] from by
          rw [List.filter_eq_nil_iff]
          intro x hx
          simp only [decide_eq_true_eq]
          rw [hblock_keys x hx]
          exact fun hc => hm hc.symm]
        rw [List.nil_append]
      have hkeyset : ((x0 :: tail).map key).toFinset =
          insert (key x0) ((rest.map key).toFinset) := by
        rw [← hsplit, List.map_append, List.toFinset_append]
        have hbk : (block.map key).toFinset = {key x0} := by
          apply Finset.ext
          intro a
          simp only [List.mem_toFinset, List.mem_map, Finset.mem_singleton]
          constructor
          · rintro ⟨x, hx, hxa⟩
            rw [← hxa]
            exact hblock_keys x hx
          · intro ha
            refine ⟨x0, ?_, ha.symm⟩
            rw [hblock_cons]
            exact List.mem_cons_self _ _
        rw [hbk, Finset.insert_eq]
      have hnotin2 : key x0 ∉ (rest.map key).toFinset := by
        rw [List.mem_toFinset]
        exact hnotin
      rw [hkeyset, Finset.sum_insert hnotin2, hfilter_k0]
      have hcongr : ∑ m in (rest.map key).toFinset,
          countRuns (((x0 :: tail).filter (fun x => decide (key x = m))).map val) =
          ∑ m in (rest.map key).toFinset,
            countRuns ((rest.filter (fun x => decide (key x = m))).map val) := by
        apply Finset.sum_congr rfl
        intro m hm
        rw [hfilter_m m (by
          intro hc
          rw [hc] at hm
          exact hnotin2 hm)]
      rw [hcongr]
      have hih := ih rest hrest_len hbr
      have happend : countRuns ((x0 :: tail).map val) ≤
          countRuns (block.map val) + countRuns (rest.map val) := by
        rw [← hsplit, List.map_append]
        exact countRuns_append _ _
      omega

theorem monthly_ge (days : List ClassifiedDay) (f : ClassifiedDay → Bool)
    (hb : blockedB (days.map (fun d => d.date.m)) = true) :
    eventCount (days.map f) ≤ monthlyEventSum days f := by
  rw [monthlyEventSum, eventCount_eq_countRuns]
  have h := grouped_runs_ge (fun d : ClassifiedDay => d.date.m) f days.length days
    (le_refl _) hb
  calc countRuns (days.map f) ≤
      ∑ m in (days.map (fun d => d.date.m)).toFinset,
        countRuns ((days.filter (fun d => decide (d.date.m = m))).map f) := h
    _ = ∑ m in (days.map (fun d => d.date.m)).toFinset, eventCount (monthFlags days f m) := by
        apply Finset.sum_congr rfl
        intro m _
        rw [monthFlags, eventCount_eq_countRuns]

/-- C5: under the contiguity of the month-of-year column (true of every
series the app can build, whose classified window never spans the same
calendar month in two different years), the sum over the monthly rollup's
groups of the per-month event count is at least the whole-series event
count, for both the oversold and the overbought flag. -/
theorem c5_monthly (days : List ClassifiedDay)
    (hb : blockedB (days.map (fun d => d.date.m)) = true) :
    eventCount (days.map (fun d => d.oversold)) ≤
      monthlyEventSum days (fun d => d.oversold) ∧
    eventCount (days.map (fun d => d.overbought)) ≤
      monthlyEventSum days (fun d => d.overbought) :=
  ⟨monthly_ge days _ hb, monthly_ge days _ hb⟩

/-- Witness for C5 at a concrete one-day classified series (January only). -/
theorem c5_witness :
    eventCount ([c6Day].map (fun d => d.oversold)) ≤
      monthlyEventSum [c6Day] (fun d => d.oversold) ∧
    eventCount ([c6Day].map (fun d => d.overbought)) ≤
      monthlyEventSum [c6Day] (fun d => d.overbought) :=
  c5_monthly [c6Day] (by simp [blockedB, c6Day, mkDate])

/-! ## Interaction log: one record per qualifying day, chronological -/

theorem recordOf_cases (d : ClassifiedDay) (r : InteractionRecord)
    (h : recordOf d = some r) :
    r.date = d.date ∧ categoryFlag r.category d = true := by
  unfold recordOf at h
  by_cases h1 : d.buy_uptrend = true
  · rw [if_pos h1] at h
    rw [← Option.some.inj h]
    exact ⟨rfl, h1⟩
  · rw [if_neg h1] at h
    by_cases h2 : d.sell_downtrend = true
    · rw [if_pos h2] at h
      rw [← Option.some.inj h]
      exact ⟨rfl, h2⟩
    · rw [if_neg h2] at h
      by_cases h3 : d.buy_risky = true
      · rw [if_pos h3] at h
        rw [← Option.some.inj h]
        exact ⟨rfl, h3⟩
      · rw [if_neg h3] at h
        by_cases h4 : d.sell_uptrend = true
        · rw [if_pos h4] at h
          rw [← Option.some.inj h]
          exact ⟨rfl, h4⟩
        · rw [if_neg h4] at h
          exact absurd h (by simp)

theorem zip_filterMap_map_sublist {α β γ δ : Type} (g : α × β → Option γ)
    (f1 : α → δ) (f2 : γ → δ) (hg : ∀ p c, g p = some c → f2 c = f1 p.1) :
    ∀ (l1 : List α) (l2 : List β),
      List.Sublist (((l1.zip l2).filterMap g).map f2) (l1.map f1) := by
  intro l1
  induction l1 with
  | nil => intro l2; simp
  | cons a r1 ih =>
    intro l2
    cases l2 with
    | nil => simp
    | cons b r2 =>
      rw [List.zip_cons_cons, List.filterMap_cons, List.map_cons]
      cases hga : g (a, b) with
      | none => exact (ih r2).cons _
      | some c =>
        rw [List.map_cons, hg (a, b) c hga]
        exact (ih r2).cons₂ _

theorem filterMap_map_sublist {α β δ : Type} (g : α → Option β)
    (f1 : α → δ) (f2 : β → δ) (hg : ∀ a c, g a = some c → f2 c = f1 a) (l : List α) :
    List.Sublist ((l.filterMap g).map f2) (l.map f1) := by
  induction l with
  | nil => simp
  | cons a rest ih =>
    rw [List.filterMap_cons, List.map_cons]
    cases hga : g a with
    | none => exact ih.cons _
    | some c =>
      rw [List.map_cons, hg a c hga]
      exact ih.cons₂ _

theorem trimmed_dates_sublist (input : List (Date × ℚ)) (P : ℕ) :
    List.Sublist ((trimmed input P).map TrimmedRow.date) (input.map Prod.fst) := by
  unfold trimmed
  apply zip_filterMap_map_sublist
  intro p c hc
  obtain ⟨v, _, hmk⟩ := Option.map_eq_some'.mp hc
  rw [← hmk]

theorem pipeline_dates_sublist (input : List (Date × ℚ)) (P : ℕ) :
    List.Sublist ((pipeline input P).map ClassifiedDay.date) (input.map Prod.fst) := by
  refine List.Sublist.trans ?_ (trimmed_dates_sublist input P)
  unfold pipeline
  apply zip_filterMap_map_sublist
  intro p c hc
  obtain ⟨v, _, hmk⟩ := Option.map_eq_some'.mp hc
  rw [← hmk]
  rfl

theorem interactions_dates_sublist (days : List ClassifiedDay) :
    List.Sublist ((interactions days).map InteractionRecord.date)
      (days.map ClassifiedDay.date) := by
  unfold interactions
  apply filterMap_map_sublist
  intro d r hr
  exact (recordOf_cases d r hr).1

theorem dateLt_ne (a b : Date) (h : dateLt a b) : a ≠ b := by
  intro hab
  rw [hab] at h
  unfold dateLt at h
  omega

/-- C6: when the input dates are strictly increasing, every emitted
interaction record's category flag is true on a classified day carrying its
date, no two records share a date, and the log is ordered by date
ascending (the loop walks the classified series chronologically and emits
at most one record per day, by the fixed flag priority). -/
theorem c6_log (input : List (Date × ℚ)) (P : ℕ)
    (hsorted : List.Pairwise dateLt (input.map Prod.fst)) :
    (∀ r ∈ interactions (pipeline input P),
       ∃ d ∈ pipeline input P, d.date = r.date ∧ categoryFlag r.category d = true) ∧
    List.Pairwise (fun r1 r2 => dateLt r1.date r2.date) (interactions (pipeline input P)) ∧
    List.Pairwise (fun r1 r2 => r1.date ≠ r2.date) (interactions (pipeline input P)) := by
  have hdates : List.Pairwise dateLt
      ((interactions (pipeline input P)).map InteractionRecord.date) :=
    hsorted.sublist
      (List.Sublist.trans (interactions_dates_sublist (pipeline input P))
        (pipeline_dates_sublist input P))
  have hpair : List.Pairwise (fun r1 r2 => dateLt r1.date r2.date)
      (interactions (pipeline input P)) := (List.pairwise_map).mp hdates
  refine ⟨?_, hpair, hpair.imp (fun h => dateLt_ne _ _ h)⟩
  intro r hr
  obtain ⟨d, hd, hrec⟩ := List.mem_filterMap.mp hr
  obtain ⟨hdate, hflag⟩ := recordOf_cases d r hrec
  exact ⟨d, hd, hdate.symm, hflag⟩

theorem c6_trimmed_eval :
    trimmed c6Input 9 = [⟨mkDate 9, 1000, 0⟩, ⟨mkDate 10, 1001, 1 / 10⟩] := by
  rw [trimmed, show (c6Input.map Prod.snd) =
    [2000, 2000, 1000, 1000, 1000, 1000, 1000, 1000, 1000, 1001] from by norm_num [c6Input]]
  norm_num [calculate_rsi, c6Input, diff, toGain, toLoss, rollingMean, rsiPoint, mkDate,
    List.filterMap_cons,
    show round2 (100 / 1001) = 1 / 10 from by norm_num [round2],
    show round2 0 = 0 from by norm_num [round2],
    show List.range 10 = [0, 1, 2, 3, 4, 5, 6, 7, 8, 9] from by decide]

theorem c6_pipeline_eval : pipeline c6Input 9 = [c6Day] := by
  rw [pipeline, c6_trimmed_eval]
  norm_num [rollingMean, smaWindow, mkDay, List.filterMap_cons, c6Day, mkDate,
    show List.range 2 = [0, 1] from by decide,
    show decide ((1 : ℚ) / 10 < 30) = true from by norm_num,
    show decide ((70 : ℚ) < 1 / 10) = false from by norm_num,
    show decide ((1 : ℚ) / 10 < 20) = true from by norm_num,
    show decide ((80 : ℚ) < 1 / 10) = false from by norm_num,
    show decide ((2001 : ℚ) / 2 < 1001) = true from by norm_num,
    show decide ((1001 : ℚ) < 2001 / 2) = false from by norm_num]

theorem c6_interactions_eval : interactions (pipeline c6Input 9) = [c6Record] := by
  rw [c6_pipeline_eval, interactions]
  rw [List.filterMap_cons]
  rw [show recordOf c6Day = some c6Record from by
    rw [recordOf, if_pos (show c6Day.buy_uptrend = true from rfl)]
    rw [if_pos (show c6Day.sma100 < c6Day.close from by norm_num [c6Day])]
    rw [show round2 c6Day.rsi = 1 / 10 from by norm_num [c6Day, round2]]
    rfl]
  rfl

/-- Witness for C6 at the concrete ten-day series `c6Input` (dates strictly
increasing), whose log holds exactly one buy-uptrend record. -/
theorem c6_witness :
    (∀ r ∈ interactions (pipeline c6Input 9),
       ∃ d ∈ pipeline c6Input 9, d.date = r.date ∧ categoryFlag r.category d = true) ∧
    List.Pairwise (fun r1 r2 => dateLt r1.date r2.date) (interactions (pipeline c6Input 9)) ∧
    List.Pairwise (fun r1 r2 => r1.date ≠ r2.date) (interactions (pipeline c6Input 9)) :=
  c6_log c6Input 9 (by decide)

/-- C10: the position label of every emitted record is fully determined by
its category — buy-uptrend and sell-uptrend records always carry the
above-SMA100 label, sell-downtrend and buy-risky records always the
below-SMA100 label — because each composite flag already forces the strict
close-vs-SMA100 inequality the label branch re-checks. -/
theorem c10_position (input : List (Date × ℚ)) (P : ℕ) (r : InteractionRecord)
    (hr : r ∈ interactions (pipeline input P)) :
    ((r.category = Category.buyUptrend ∨ r.category = Category.sellUptrend) →
      r.position = Pos.above) ∧
    ((r.category = Category.sellDowntrend ∨ r.category = Category.buyRisky) →
      r.position = Pos.below) := by
  obtain ⟨d, hd, hrec⟩ := List.mem_filterMap.mp hr
  obtain ⟨hfix, hos, hob, hxos, hxob, hup, hdn, hbu, hsd, hbr2, hsu⟩ :=
    pipeline_flags input P d hd
  unfold recordOf at hrec
  by_cases h1 : d.buy_uptrend = true
  · rw [if_pos h1] at hrec
    have hupt : d.sma100 < d.close := by
      rw [hbu, Bool.and_eq_true] at h1
      exact of_decide_eq_true (hup ▸ h1.2)
    rw [if_pos hupt] at hrec
    rw [← Option.some.inj hrec]
    exact ⟨fun _ => rfl, fun hc => by rcases hc with hc | hc <;> exact absurd hc (by simp)⟩
  · rw [if_neg h1] at hrec
    by_cases h2 : d.sell_downtrend = true
    · rw [if_pos h2] at hrec
      have hdnt : d.close < d.sma100 := by
        rw [hsd, Bool.and_eq_true] at h2
        exact of_decide_eq_true (hdn ▸ h2.2)
      rw [if_pos hdnt] at hrec
      rw [← Option.some.inj hrec]
      exact ⟨fun hc => by rcases hc with hc | hc <;> exact absurd hc (by simp), fun _ => rfl⟩
    · rw [if_neg h2] at hrec
      by_cases h3 : d.buy_risky = true
      · rw [if_pos h3] at hrec
        have hdnt : d.close < d.sma100 := by
          rw [hbr2, Bool.and_eq_true] at h3
          exact of_decide_eq_true (hdn ▸ h3.2)
        rw [if_pos hdnt] at hrec
        rw [← Option.some.inj hrec]
        exact ⟨fun hc => by rcases hc with hc | hc <;> exact absurd hc (by simp), fun _ => rfl⟩
      · rw [if_neg h3] at hrec
        by_cases h4 : d.sell_uptrend = true
        · rw [if_pos h4] at hrec
          have hupt : d.sma100 < d.close := by
            rw [hsu, Bool.and_eq_true] at h4
            exact of_decide_eq_true (hup ▸ h4.2)
          rw [if_pos hupt] at hrec
          rw [← Option.some.inj hrec]
          exact ⟨fun _ => rfl, fun hc => by rcases hc with hc | hc <;> exact absurd hc (by simp)⟩
        · rw [if_neg h4] at hrec
          exact absurd hrec (by simp)

/-- Witness for C10 at the concrete buy-uptrend record emitted on `c6Input`. -/
theorem c10_witness :
    ((c6Record.category = Category.buyUptrend ∨ c6Record.category = Category.sellUptrend) →
      c6Record.position = Pos.above) ∧
    ((c6Record.category = Category.sellDowntrend ∨ c6Record.category = Category.buyRisky) →
      c6Record.position = Pos.below) :=
  c10_position c6Input 9 c6Record (by
    rw [c6_interactions_eval]
    exact List.mem_singleton.mpr rfl)

/-! ## Length of the classified series under the fallback window -/

theorem filterMap_length_countP {α β : Type} (g : α → Option β) (l : List α) :
    (l.filterMap g).length = l.countP (fun a => (g a).isSome) := by
  induction l with
  | nil => rfl
  | cons a rest ih =>
    rw [List.filterMap_cons, List.countP_cons]
    cases hga : g a with
    | none => rw [ih]; simp
    | some b => rw [List.length_cons, ih]; simp

theorem countP_zip_right {α β : Type} (q : β → Bool) :
    ∀ (xs : List α) (ys : List β), xs.length = ys.length →
      (xs.zip ys).countP (fun p => q p.2) = ys.countP q := by
  intro xs
  induction xs with
  | nil =>
    intro ys hlen
    rw [List.length_nil] at hlen
    rw [List.length_eq_zero.mp hlen.symm]
    rfl
  | cons x xs2 ih =>
    intro ys hlen
    cases ys with
    | nil => exact absurd hlen (by simp)
    | cons y ys2 =>
      rw [List.zip_cons_cons, List.countP_cons, List.countP_cons,
        ih ys2 (by simpa using hlen)]

theorem range_countP_ge (w : ℕ) (hw : 1 ≤ w) : ∀ n : ℕ,
    (List.range n).countP (fun t => decide (w ≤ t + 1)) = n + 1 - w := by
  intro n
  induction n with
  | zero =>
    rw [List.range_zero]
    rw [show List.countP (fun t => decide (w ≤ t + 1)) [] = 0 from rfl]
    omega
  | succ n ih =>
    rw [List.range_succ, List.countP_append, ih]
    by_cases h : w ≤ n + 1
    · rw [show (List.countP (fun t => decide (w ≤ t + 1)) [n]) = 1 from by
        rw [List.countP_cons]
        simp [h]]
      omega
    · rw [show (List.countP (fun t => decide (w ≤ t + 1)) [n]) = 0 from by
        rw [List.countP_cons]
        simp [h]]
      omega

theorem rollingMean_countP_isSome (w : ℕ) (hw : 1 ≤ w) (l : List ℚ) :
    (rollingMean w l).countP (fun o => o.isSome) = l.length + 1 - w := by
  rw [rollingMean, List.countP_map]
  rw [show ((fun o : Option ℚ => o.isSome) ∘ fun t =>
      if t + 1 < w then none else some (((l.drop (t + 1 - w)).take w).sum / (w : ℚ))) =
      (fun t => decide (w ≤ t + 1)) from by
    funext t
    by_cases h : t + 1 < w
    · rw [Function.comp_apply, if_pos h, Option.isSome_none]
      symm
      rw [decide_eq_false_iff_not]
      omega
    · rw [Function.comp_apply, if_neg h, Option.isSome_some]
      symm
      rw [decide_eq_true_eq]
      omega]
  exact range_countP_ge w hw l.length

theorem pipeline_length_eq (input : List (Date × ℚ)) (P : ℕ)
    (hw1 : 1 ≤ smaWindow (trimmed input P).length) :
    (pipeline input P).length =
      (trimmed input P).length + 1 - smaWindow (trimmed input P).length := by
  rw [pipeline, filterMap_length_countP]
  have hmap : ∀ (x : TrimmedRow × Option ℚ × Option ℚ),
      ((x.2.2).map (fun s => mkDay x.1 x.2.1 s)).isSome = x.2.2.isSome := by
    intro x
    cases hx : x.2.2 <;> rfl
  simp only [hmap]
  rw [countP_zip_right (fun b : Option ℚ × Option ℚ => b.2.isSome) _ _ (by
    rw [List.length_zip]
    simp [rollingMean_length])]
  rw [countP_zip_right (fun o : Option ℚ => o.isSome) _ _ (by
    simp [rollingMean_length])]
  rw [rollingMean_countP_isSome _ hw1]
  rw [List.length_map]

theorem trimmed_length_le (input : List (Date × ℚ)) (P : ℕ) :
    (trimmed input P).length ≤ input.length := by
  rw [trimmed]
  calc (List.filterMap _ (input.zip (calculate_rsi (input.map Prod.snd) P))).length
      ≤ (input.zip (calculate_rsi (input.map Prod.snd) P)).length :=
        List.length_filterMap_le _ _
    _ ≤ input.length := by
        rw [List.length_zip]
        omega

/-- C7, amended: on an input of exactly `trend_window - 1 = 99` days the
fallback of line 73 applies — the realized long window is
`min(50, trimmed length)`, not 100 — so whenever at least 50 rows survive
the RSI trim the SMA100 column is defined from the 50th trimmed row on and
the classified output is nonempty, with exactly `trimmed length - 49`
rows; the claim's predicted empty output does not occur. -/
theorem c7_amended (input : List (Date × ℚ)) (h99 : input.length = 99)
    (h50 : 50 ≤ (trimmed input 9).length) :
    smaWindow (trimmed input 9).length = 50 ∧
    (pipeline input 9).length = (trimmed input 9).length - 49 ∧
    pipeline input 9 ≠ [] := by
  have hle : (trimmed input 9).length ≤ 99 := h99 ▸ trimmed_length_le input 9
  have hw : smaWindow (trimmed input 9).length = 50 := by
    rw [smaWindow, if_neg (by omega)]
    omega
  have hlen := pipeline_length_eq input 9 (by omega)
  rw [hw] at hlen
  refine ⟨hw, by omega, ?_⟩
  intro hnil
  rw [hnil] at hlen
  rw [List.length_nil] at hlen
  omega

theorem c7_trimmed_length : (trimmed c7Input 9).length = 91 := by
  rw [trimmed, show (c7Input.map Prod.snd) = [1, 2, 3, 4, 5, 6, 7, 8, 9, 10, 11, 12, 13, 14, 15, 16, 17, 18, 19, 20, 21, 22, 23, 24, 25, 26, 27, 28, 29, 30, 31, 32, 33, 34, 35, 36, 37, 38, 39, 40, 41, 42, 43, 44, 45, 46, 47, 48, 49, 50, 51, 52, 53, 54, 55, 56, 57, 58, 59, 60, 61, 62, 63, 64, 65, 66, 67, 68, 69, 70, 71, 72, 73, 74, 75, 76, 77, 78, 79, 80, 81, 82, 83, 84, 85, 86, 87, 88, 89, 90, 91, 92, 93, 94, 95, 96, 97, 98, 99] from by
    rw [c7Input, show List.range 99 = [0, 1, 2, 3, 4, 5, 6, 7, 8, 9, 10, 11, 12, 13, 14, 15, 16, 17, 18, 19, 20, 21, 22, 23, 24, 25, 26, 27, 28, 29, 30, 31, 32, 33, 34, 35, 36, 37, 38, 39, 40, 41, 42, 43, 44, 45, 46, 47, 48, 49, 50, 51, 52, 53, 54, 55, 56, 57, 58, 59, 60, 61, 62, 63, 64, 65, 66, 67, 68, 69, 70, 71, 72, 73, 74, 75, 76, 77, 78, 79, 80, 81, 82, 83, 84, 85, 86, 87, 88, 89, 90, 91, 92, 93, 94, 95, 96, 97, 98] from by decide]
    norm_num]
  rw [show c7Input = (List.range 99).map (fun i => (mkDate (i + 1), (i : ℚ) + 1)) from rfl,
    show List.range 99 = [0, 1, 2, 3, 4, 5, 6, 7, 8, 9, 10, 11, 12, 13, 14, 15, 16, 17, 18, 19, 20, 21, 22, 23, 24, 25, 26, 27, 28, 29, 30, 31, 32, 33, 34, 35, 36, 37, 38, 39, 40, 41, 42, 43, 44, 45, 46, 47, 48, 49, 50, 51, 52, 53, 54, 55, 56, 57, 58, 59, 60, 61, 62, 63, 64, 65, 66, 67, 68, 69, 70, 71, 72, 73, 74, 75, 76, 77, 78, 79, 80, 81, 82, 83, 84, 85, 86, 87, 88, 89, 90, 91, 92, 93, 94, 95, 96, 97, 98] from by decide]
  norm_num [calculate_rsi, diff, toGain, toLoss, rollingMean, rsiPoint, mkDate,
    List.filterMap_cons,
    show round2 100 = 100 from by norm_num [round2],
    show List.range 99 = [0, 1, 2, 3, 4, 5, 6, 7, 8, 9, 10, 11, 12, 13, 14, 15, 16, 17, 18, 19, 20, 21, 22, 23, 24, 25, 26, 27, 28, 29, 30, 31, 32, 33, 34, 35, 36, 37, 38, 39, 40, 41, 42, 43, 44, 45, 46, 47, 48, 49, 50, 51, 52, 53, 54, 55, 56, 57, 58, 59, 60, 61, 62, 63, 64, 65, 66, 67, 68, 69, 70, 71, 72, 73, 74, 75, 76, 77, 78, 79, 80, 81, 82, 83, 84, 85, 86, 87, 88, 89, 90, 91, 92, 93, 94, 95, 96, 97, 98] from by decide]

theorem c7_counterexample :
    c7Input.length = 99 ∧ pipeline c7Input 9 ≠ [] := by
  have h99 : c7Input.length = 99 := by
    rw [c7Input, List.length_map, List.length_range]
  have hw : smaWindow (trimmed c7Input 9).length = 50 := by
    rw [c7_trimmed_length]
    rfl
  have hlen := pipeline_length_eq c7Input 9 (by rw [hw]; omega)
  rw [hw, c7_trimmed_length] at hlen
  refine ⟨h99, ?_⟩
  intro hnil
  rw [hnil] at hlen
  rw [List.length_nil] at hlen
  omega

/-- Witness for the amended C7 at the concrete 99-day strictly increasing
series: 91 rows survive the trim and the classified output has 42 rows. -/
theorem c7_witness :
    smaWindow (trimmed c7Input 9).length = 50 ∧
    (pipeline c7Input 9).length = (trimmed c7Input 9).length - 49 ∧
    pipeline c7Input 9 ≠ [] :=
  c7_amended c7Input (by rw [c7Input, List.length_map, List.length_range])
    (by rw [c7_trimmed_length]; omega)

